import Mathlib

/-!
Shallow embedding of the I/O readiness reactor in `src/io/poll/poller.rs`
(`Registrant`, `Poller::handle_request`, `Poller::poll`, `Poller::next_token`,
`Poller::mio_register`, and the clone/drop behaviour of `EventedHandle`),
together with proofs about the properties stated in the specification.
-/

set_option linter.unusedVariables false

namespace Fibers

/-- Modulus of the Rust `usize` type: tokens and the token counter are 64-bit
machine integers, so wrap-around arithmetic (`wrapping_add`) is modulo `2 ^ 64`. -/
def USIZE : Nat := 2 ^ 64

/-- Embedding of `mio::Ready`: a readiness/interest mask with a readable bit
`r` and a writable bit `w`. -/
structure Ready where
  r : Bool
  w : Bool
deriving DecidableEq

/-- the empty mask, `mio::Ready::none()`. -/
def Ready.none : Ready := ⟨false, false⟩

/-- the readable mask, `mio::Ready::readable()`. -/
def Ready.readable : Ready := ⟨true, false⟩

/-- the writable mask, `mio::Ready::writable()`. -/
def Ready.writable : Ready := ⟨false, true⟩

/-- bitwise union of two masks, written `a | b` in the source. -/
def Ready.union (a b : Ready) : Ready := ⟨a.r || b.r, a.w || b.w⟩

/-- Embedding of `oneshot::Sender<()>`, the one-shot wake-up notifier pushed by a
Monitor request. `alive` records whether the matching receiver still exists,
i.e. whether `send` on this notifier would succeed; the reactor never branches
on this flag — which is what makes notifier send failures silent. -/
structure Notifier where
  id : Nat
  alive : Bool
deriving DecidableEq

/-- Embedding of `Registrant`: per-resource bookkeeping owned by the reactor.
The boxed evented resource (`BoxEvented`) is opaque to the reactor, so it is
represented by a numeric identity `evented`. -/
structure Registrant where
  is_first : Bool
  evented : Nat
  read_waitings : List Notifier
  write_waitings : List Notifier
deriving DecidableEq

/-- `Registrant::new`: note that the source initializes `is_first` to `false`. -/
def Registrant.new (evented : Nat) : Registrant :=
  { is_first := false
    evented := evented
    read_waitings := []
    write_waitings := [] }

/-- `Registrant::mio_interest`: derived interest mask — readable when the
readable-waiter queue is non-empty, writable when the writable-waiter queue is
non-empty. -/
def Registrant.mio_interest (r : Registrant) : Ready :=
  Ready.union
    (if r.read_waitings.isEmpty then Ready.none else Ready.readable)
    (if r.write_waitings.isEmpty then Ready.none else Ready.writable)

/-- An OS-polling-facility call issued by the reactor (`mio::Poll::register`,
`mio::Poll::reregister`, `mio::Poll::deregister`). Registration calls always
pass `PollOpt::edge() | PollOpt::oneshot()`, so the options are not recorded. -/
inductive MioOp where
  | register (evented : Nat) (token : Nat) (interest : Ready)
  | reregister (evented : Nat) (token : Nat) (interest : Ready)
  | deregister (evented : Nat)
deriving DecidableEq

/-- `Poller::mio_register`: when the derived interest is non-empty, issue one
OS registration (`register` the first time, selected by `is_first`, clearing it;
`reregister` afterwards); when the interest is empty, issue nothing. Returns the
updated registrant together with the list of OS calls issued. -/
def mio_register (token : Nat) (r : Registrant) : Registrant × List MioOp :=
  let interest := r.mio_interest
  if interest ≠ Ready.none then
    if r.is_first then
      ({ r with is_first := false }, [MioOp.register r.evented token interest])
    else
      (r, [MioOp.reregister r.evented token interest])
  else
    (r, [])

/-- lookup in the registrant map (`HashMap<mio::Token, Registrant>`),
embedded as an association list with unique keys. -/
def lookupReg : List (Nat × Registrant) → Nat → Option Registrant
  | [], _ => Option.none
  | (k, r) :: rest, t => if k = t then some r else lookupReg rest t

/-- `HashMap::contains_key` on the registrant map. -/
def containsReg (m : List (Nat × Registrant)) (t : Nat) : Bool :=
  (lookupReg m t).isSome

/-- `HashMap::insert` on the registrant map: replaces the binding when the key
is present, otherwise appends a new binding. -/
def insertReg : List (Nat × Registrant) → Nat → Registrant → List (Nat × Registrant)
  | [], t, r => [(t, r)]
  | (k, r') :: rest, t, r =>
    if k = t then (t, r) :: rest else (k, r') :: insertReg rest t r

/-- `HashMap::remove` on the registrant map: removes the binding for the key,
if any. -/
def removeReg : List (Nat × Registrant) → Nat → List (Nat × Registrant)
  | [], _ => []
  | (k, r) :: rest, t => if k = t then rest else (k, r) :: removeReg rest t

/-- keys of the registrant map: the tokens of the currently-live registrants. -/
def keysOf (m : List (Nat × Registrant)) : List Nat :=
  m.map (fun p => p.1)

/-- Embedding of the reactor state relevant to request handling: the token
counter `next_token`, the registrant map, and the length of the (never
populated) timeout queue. -/
structure PollerState where
  next_token : Nat
  registrants : List (Nat × Registrant)
  timeout_queue_len : Nat
deriving DecidableEq

/-- `Poller::next_token`: advance the wrap-around counter until it lands on a
token not currently in the registrant map. The source loop is unbounded; the
explicit `fuel` argument counts loop iterations, and `USIZE` fuel covers one
full wrap of the counter. Returns the allocated token with the updated counter,
or `none` when the fuel runs out (the source loop would run forever). -/
def nextTokenFuel : Nat → Nat → List (Nat × Registrant) → Option (Nat × Nat)
  | 0, _, _ => Option.none
  | fuel + 1, c, m =>
    let token := c % USIZE
    let c' := (token + 1) % USIZE
    if containsReg m token then nextTokenFuel fuel c' m else some (token, c')

/-- Embedding of `Interest` (readable or writable direction). -/
inductive Interest where
  | Read
  | Write
deriving DecidableEq

/-- Embedding of `Request`, the message vocabulary of the request channel.
The boxed resource of `Register` is its numeric identity, and the reply slot
`oneshot::Sender<EventedHandle>` is a numeric reply-slot identity. -/
inductive Request where
  | Register (evented : Nat) (reply : Nat)
  | Deregister (token : Nat)
  | Monitor (token : Nat) (interest : Interest) (notifier : Notifier)
  | SetTimeout
  | CancelTimeout
deriving DecidableEq

/-- the fatal conditions that abort a loop iteration of the reactor. -/
inductive PollError where
  | invariantViolation
  | allocatorDiverges
  | unimplementedRequest
deriving DecidableEq

/-- pushing a Monitor notifier onto the queue of its direction
(`Vec::push`, i.e. append at the end). -/
def pushWaiter (r : Registrant) (interest : Interest) (n : Notifier) : Registrant :=
  match interest with
  | .Read => { r with read_waitings := r.read_waitings ++ [n] }
  | .Write => { r with write_waitings := r.write_waitings ++ [n] }

/-- result of handling one request: the new reactor state, the OS-facility
calls issued, and the replies sent (reply slot paired with the token of the
`EventedHandle` sent into it). -/
structure ReqEffect where
  state : PollerState
  ops : List MioOp
  replies : List (Nat × Nat)
deriving DecidableEq

/-- `Poller::handle_request`. The `assert_some!` macro is code of this
repository that is not under `src/`; modelled from the spec: a request naming a
token absent from the registrant map is a fatal invariant violation that aborts
the iteration (`PollError.invariantViolation`). `SetTimeout`/`CancelTimeout`
hit `unimplemented!()`. The `Register` reply send has its result discarded in
the source (`let _ = reply.send(..)`), so a reply is recorded unconditionally. -/
def handle_request (s : PollerState) (req : Request) : Except PollError ReqEffect :=
  match req with
  | .Register evented reply =>
    match nextTokenFuel USIZE s.next_token s.registrants with
    | Option.none => .error .allocatorDiverges
    | some (token, c') =>
      .ok { state := { s with
              next_token := c'
              registrants := insertReg s.registrants token (Registrant.new evented) }
            ops := []
            replies := [(reply, token)] }
  | .Deregister token =>
    match lookupReg s.registrants token with
    | Option.none => .error .invariantViolation
    | some r =>
      .ok { state := { s with registrants := removeReg s.registrants token }
            ops := if !r.is_first then [MioOp.deregister r.evented] else []
            replies := [] }
  | .Monitor token interest notifier =>
    match lookupReg s.registrants token with
    | Option.none => .error .invariantViolation
    | some r =>
      let r1 := pushWaiter r interest notifier
      if r1.read_waitings.length = 1 ∨ r1.write_waitings.length = 1 then
        let p := mio_register token r1
        .ok { state := { s with registrants := insertReg s.registrants token p.1 }
              ops := p.2
              replies := [] }
      else
        .ok { state := { s with registrants := insertReg s.registrants token r1 }
              ops := []
              replies := [] }
  | .SetTimeout => .error .unimplementedRequest
  | .CancelTimeout => .error .unimplementedRequest

/-- a ready event reported by the OS wait (`mio::Event`): the token it concerns
and the readiness kind bits (`e.kind().is_readable()`, `e.kind().is_writable()`). -/
structure MioEvent where
  token : Nat
  readable : Bool
  writable : Bool
deriving DecidableEq

/-- result of the ready-event part of one loop iteration: the new reactor
state, the OS calls issued, and the notifiers that were sent a wake signal, in
the order the sends happened. -/
structure EventEffect where
  state : PollerState
  ops : List MioOp
  fired : List Notifier
deriving DecidableEq

/-- one iteration of the ready-event loop in `Poller::poll`: look the token up
(`assert_some!` — absence is fatal, modelled from the spec as
`PollError.invariantViolation`), drain and fire every readable waiter when the
event is readable and every writable waiter when it is writable (each `send`
result is discarded by the `for _ in .. {}` loop, so dead notifiers are fired
and forgotten exactly like live ones), then rearm through `mio_register`. -/
def processEvent (s : PollerState) (e : MioEvent) : Except PollError EventEffect :=
  match lookupReg s.registrants e.token with
  | Option.none => .error .invariantViolation
  | some r =>
    let firedRead := if e.readable then r.read_waitings else []
    let r1 := if e.readable then { r with read_waitings := [] } else r
    let firedWrite := if e.writable then r1.write_waitings else []
    let r2 := if e.writable then { r1 with write_waitings := [] } else r1
    let p := mio_register e.token r2
    .ok { state := { s with registrants := insertReg s.registrants e.token p.1 }
          ops := p.2
          fired := firedRead ++ firedWrite }

/-- the full ready-event loop of `Poller::poll`, over the batch of events the
OS wait reported. -/
def processEvents (s : PollerState) : List MioEvent → Except PollError EventEffect
  | [] => .ok { state := s, ops := [], fired := [] }
  | e :: es =>
    match processEvent s e with
    | .error err => .error err
    | .ok eff1 =>
      match processEvents eff1.state es with
      | .error err => .error err
      | .ok eff2 =>
        .ok { state := eff2.state
              ops := eff1.ops ++ eff2.ops
              fired := eff1.fired ++ eff2.fired }

/-- result of one `Poller::poll` call: the new reactor state, the requests
still pending in the channel afterwards, the timeout actually handed to the OS
wait, and the OS calls, fired notifiers and replies of the iteration. -/
structure PollEffect where
  state : PollerState
  pending : List Request
  usedTimeout : Option Nat
  ops : List MioOp
  fired : List Notifier
  replies : List (Nat × Nat)
deriving DecidableEq

/-- `Poller::poll`: one loop iteration. `pending` is the content of the request
channel (`try_recv` takes its head; the `Disconnected` arm is `unreachable!()`
because the poller keeps its own sender endpoint alive); `timeout` is the
caller-supplied wait timeout in milliseconds (`Option.none` = block forever);
`events` is the batch the OS wait reports. When a request was received,
`did_something` forces the OS wait timeout to zero; otherwise the timeout-queue
branch is a pass-through (`TODO` in the source) and the caller timeout is used. -/
def pollStep (s : PollerState) (pending : List Request) (timeout : Option Nat)
    (events : List MioEvent) : Except PollError PollEffect :=
  match pending with
  | [] =>
    match processEvents s events with
    | .error err => .error err
    | .ok eff =>
      .ok { state := eff.state
            pending := []
            usedTimeout := if s.timeout_queue_len > 0 then timeout else timeout
            ops := eff.ops
            fired := eff.fired
            replies := [] }
  | req :: rest =>
    match handle_request s req with
    | .error err => .error err
    | .ok reff =>
      match processEvents reff.state events with
      | .error err => .error err
      | .ok eff =>
        .ok { state := eff.state
              pending := rest
              usedTimeout := some 0
              ops := reff.ops ++ eff.ops
              fired := eff.fired
              replies := reff.replies }

/-- running a list of requests through `handle_request`, one after the other,
keeping only the reactor state. -/
def runRequests (s : PollerState) : List Request → Except PollError PollerState
  | [] => .ok s
  | req :: rest =>
    match handle_request s req with
    | .error err => .error err
    | .ok eff => runRequests eff.state rest

/-- the reactor-state invariant: live registrants have pairwise distinct
tokens, every live token is a representable `usize`, and so is the counter. -/
def StateInv (s : PollerState) : Prop :=
  (keysOf s.registrants).Nodup ∧
  s.next_token < USIZE ∧
  ∀ k ∈ keysOf s.registrants, k < USIZE

instance (s : PollerState) : Decidable (StateInv s) := by
  unfold StateInv
  infer_instance

/-- the clone/drop-relevant state of one family of `EventedHandle` clones: the
value of the shared atomic count, the number of live handles, and the number of
`Deregister` requests sent for the token so far. -/
structure HandleState where
  shared_count : Nat
  live : Nat
  dereg_sent : Nat
deriving DecidableEq

/-- `EventedHandle::new`: one live handle, shared count 1, nothing sent. -/
def HandleState.new : HandleState :=
  { shared_count := 1, live := 1, dereg_sent := 0 }

/-- a clone or a drop of one of the live handles. -/
inductive HandleOp where
  | clone
  | drop
deriving DecidableEq

/-- effect of `EventedHandle::clone` / `Drop for EventedHandle` on the shared
state: clone performs `fetch_add(1)`; drop performs `fetch_sub(1)` and, exactly
when the value it observed was 1, sends one `Deregister` request. -/
def HandleState.applyOp (s : HandleState) : HandleOp → HandleState
  | .clone =>
    { s with shared_count := s.shared_count + 1, live := s.live + 1 }
  | .drop =>
    { shared_count := s.shared_count - 1
      live := s.live - 1
      dereg_sent := if s.shared_count = 1 then s.dereg_sent + 1 else s.dereg_sent }

/-- run a sequence of clone/drop operations. -/
def HandleState.run (s : HandleState) (ops : List HandleOp) : HandleState :=
  ops.foldl HandleState.applyOp s

/-- a clone/drop sequence is valid when every operation is performed on a live
handle: the live count is positive at that point. `live` is the number of live
handles before the sequence. -/
def validOps : Nat → List HandleOp → Bool
  | _, [] => true
  | live, .clone :: rest => decide (0 < live) && validOps (live + 1) rest
  | live, .drop :: rest => decide (0 < live) && validOps (live - 1) rest

/-- number of live handles after a clone/drop sequence, starting from `l`. -/
def liveAfter : Nat → List HandleOp → Nat
  | l, [] => l
  | l, .clone :: rest => liveAfter (l + 1) rest
  | l, .drop :: rest => liveAfter (l - 1) rest

/-- number of occurrences of one operation in a clone/drop sequence. -/
def countOp (o : HandleOp) : List HandleOp → Nat
  | [] => 0
  | op :: rest => (if op = o then 1 else 0) + countOp o rest

/-- the `EventedHandle` invariant: the shared count equals the number of live
handles, and exactly one `Deregister` request has been sent when (and only
when) the live count has reached zero. -/
def HandleInv (st : HandleState) : Prop :=
  st.shared_count = st.live ∧
  st.dereg_sent = if st.live = 0 then 1 else 0

deriving instance DecidableEq for Except

/-- sample notifier with a live receiver. -/
def nA : Notifier := ⟨1, true⟩

/-- sample notifier with a live receiver. -/
def nB : Notifier := ⟨2, true⟩

/-- sample notifier whose receiver has been dropped: `send` on it fails. -/
def nC : Notifier := ⟨3, false⟩

/-- sample registrant with one readable waiter and one writable waiter. -/
def rBoth : Registrant :=
  { is_first := false, evented := 7, read_waitings := [nA], write_waitings := [nB] }

/-- sample reactor state holding `rBoth` at token 0. -/
def sBoth : PollerState :=
  { next_token := 1, registrants := [(0, rBoth)], timeout_queue_len := 0 }

/-- the empty reactor state right after `Poller::with_capacity`. -/
def initPoller : PollerState :=
  { next_token := 0, registrants := [], timeout_queue_len := 0 }

/-- effect of the sample `Register` request used in the evaluations below. -/
def effRegister : ReqEffect :=
  { state := { next_token := 1, registrants := [(0, Registrant.new 7)], timeout_queue_len := 0 }
    ops := []
    replies := [(99, 0)] }

/-- effect of the sample `Deregister` request that follows `effRegister`. -/
def effDeregister : ReqEffect :=
  { state := { next_token := 1, registrants := [], timeout_queue_len := 0 }
    ops := [MioOp.deregister 7]
    replies := [] }

/-- state reached from `sBoth` after deregistering token 0. -/
def sAfterDereg : PollerState :=
  { next_token := 1, registrants := [], timeout_queue_len := 0 }

/-- sample clone/drop sequence: one clone, then both handles dropped. -/
def opsW : List HandleOp := [HandleOp.clone, HandleOp.drop, HandleOp.drop]

/-- effect of the sample `pollStep` call used as a witness. -/
def effPoll : PollEffect :=
  { state := { next_token := 1, registrants := [], timeout_queue_len := 0 }
    pending := []
    usedTimeout := some 0
    ops := [MioOp.deregister 7]
    fired := []
    replies := [] }

theorem USIZE_pos : 0 < USIZE := by decide

theorem containsReg_iff (t : Nat) :
    ∀ m : List (Nat × Registrant), containsReg m t = true ↔ t ∈ keysOf m := by
  intro m
  induction m with
  | nil => simp [containsReg, lookupReg, keysOf]
  | cons p rest ih =>
    obtain ⟨k, r⟩ := p
    by_cases hk : k = t
    · subst hk
      simp [containsReg, lookupReg, keysOf]
    · have hk' : ¬ t = k := fun h => hk h.symm
      simpa [containsReg, lookupReg, hk, keysOf, hk'] using ih

theorem containsReg_false_iff (t : Nat) (m : List (Nat × Registrant)) :
    containsReg m t = false ↔ t ∉ keysOf m := by
  rw [← Bool.not_eq_true, not_iff_not]
  exact containsReg_iff t m

theorem lookupReg_mem (t : Nat) (r : Registrant) :
    ∀ m : List (Nat × Registrant), lookupReg m t = some r → t ∈ keysOf m := by
  intro m h
  have : containsReg m t = true := by simp [containsReg, h]
  exact (containsReg_iff t m).1 this

theorem keysOf_insertReg_of_mem (t : Nat) (r : Registrant) :
    ∀ m : List (Nat × Registrant), t ∈ keysOf m →
      keysOf (insertReg m t r) = keysOf m := by
  intro m
  induction m with
  | nil => intro h; simp [keysOf] at h
  | cons p rest ih =>
    intro h
    obtain ⟨k, r'⟩ := p
    by_cases hk : k = t
    · subst hk
      simp [insertReg, keysOf]
    · have h' : t ∈ keysOf rest := by
        have hk' : ¬ t = k := fun hh => hk hh.symm
        simpa [keysOf, hk'] using h
      have heq := ih h'
      simp only [keysOf] at heq
      simp only [insertReg, if_neg hk, keysOf, List.map_cons, heq]

theorem keysOf_insertReg_of_not_mem (t : Nat) (r : Registrant) :
    ∀ m : List (Nat × Registrant), t ∉ keysOf m →
      keysOf (insertReg m t r) = keysOf m ++ [t] := by
  intro m
  induction m with
  | nil => intro h; simp [insertReg, keysOf]
  | cons p rest ih =>
    intro h
    obtain ⟨k, r'⟩ := p
    by_cases hk : k = t
    · subst hk
      exfalso
      exact h (by simp [keysOf])
    · have h' : t ∉ keysOf rest := by
        intro hmem
        exact h (by simp [keysOf]; exact Or.inr (by simpa [keysOf] using hmem))
      have heq := ih h'
      simp only [keysOf] at heq
      simp only [insertReg, if_neg hk, keysOf, List.map_cons, heq, List.cons_append]

theorem removeReg_sublist (t : Nat) :
    ∀ m : List (Nat × Registrant), List.Sublist (removeReg m t) m := by
  intro m
  induction m with
  | nil => simp [removeReg]
  | cons p rest ih =>
    obtain ⟨k, r⟩ := p
    by_cases hk : k = t
    · simp only [removeReg, if_pos hk]
      exact List.sublist_cons_self (k, r) rest
    · simp only [removeReg, if_neg hk]
      exact List.Sublist.cons₂ (k, r) ih

theorem keysOf_removeReg_sublist (t : Nat) (m : List (Nat × Registrant)) :
    List.Sublist (keysOf (removeReg m t)) (keysOf m) := by
  simp only [keysOf]
  exact List.Sublist.map (fun p => p.1) (removeReg_sublist t m)

theorem lookupReg_insertReg_self (t : Nat) (r : Registrant) :
    ∀ m : List (Nat × Registrant), lookupReg (insertReg m t r) t = some r := by
  intro m
  induction m with
  | nil => simp [insertReg, lookupReg]
  | cons p rest ih =>
    obtain ⟨k, r'⟩ := p
    by_cases hk : k = t
    · subst hk
      simp [insertReg, lookupReg]
    · simp [insertReg, hk, lookupReg, ih]

theorem nextTokenFuel_step (fuel c : Nat) (m : List (Nat × Registrant)) :
    nextTokenFuel (fuel + 1) c m =
      if containsReg m (c % USIZE) then
        nextTokenFuel fuel ((c % USIZE + 1) % USIZE) m
      else some (c % USIZE, (c % USIZE + 1) % USIZE) := by
  simp [nextTokenFuel]

theorem nextTokenFuel_sound :
    ∀ (fuel c : Nat) (m : List (Nat × Registrant)) (t c' : Nat),
      nextTokenFuel fuel c m = some (t, c') →
      containsReg m t = false ∧ t < USIZE ∧ c' < USIZE := by
  intro fuel
  induction fuel with
  | zero =>
    intro c m t c' h
    simp [nextTokenFuel] at h
  | succ fuel ih =>
    intro c m t c' h
    rw [nextTokenFuel_step] at h
    by_cases hc : containsReg m (c % USIZE)
    · rw [if_pos hc] at h
      exact ih _ _ _ _ h
    · rw [if_neg hc] at h
      simp only [Option.some.injEq, Prod.mk.injEq] at h
      obtain ⟨rfl, rfl⟩ := h
      refine ⟨?_, Nat.mod_lt _ USIZE_pos, Nat.mod_lt _ USIZE_pos⟩
      simpa using hc

theorem nextTokenFuel_some_of_free :
    ∀ (fuel c : Nat) (m : List (Nat × Registrant)),
      (∃ k, k < fuel ∧ ((c % USIZE + k) % USIZE) ∉ keysOf m) →
      ∃ t c', nextTokenFuel fuel c m = some (t, c') := by
  intro fuel
  induction fuel with
  | zero =>
    rintro c m ⟨k, hk, -⟩
    omega
  | succ fuel ih =>
    rintro c m ⟨k, hk, hfree⟩
    by_cases hc : containsReg m (c % USIZE)
    · have hk0 : k ≠ 0 := by
        rintro rfl
        apply hfree
        have heq : (c % USIZE + 0) % USIZE = c % USIZE := by
          rw [Nat.add_zero]
          exact Nat.mod_mod_of_dvd c dvd_rfl
        rw [heq]
        exact (containsReg_iff _ m).1 hc
      obtain ⟨k', rfl⟩ : ∃ k', k = k' + 1 := ⟨k - 1, by omega⟩
      have hfree' : ((((c % USIZE + 1) % USIZE) % USIZE) + k') % USIZE ∉ keysOf m := by
        have heq : (((c % USIZE + 1) % USIZE) % USIZE + k') % USIZE =
            (c % USIZE + (k' + 1)) % USIZE := by
          rw [Nat.mod_mod_of_dvd _ dvd_rfl, Nat.mod_add_mod]
          congr 1
          omega
        rw [heq]
        exact hfree
      obtain ⟨t, c', ht⟩ := ih ((c % USIZE + 1) % USIZE) m ⟨k', by omega, hfree'⟩
      refine ⟨t, c', ?_⟩
      rw [nextTokenFuel_step, if_pos hc]
      exact ht
    · refine ⟨c % USIZE, (c % USIZE + 1) % USIZE, ?_⟩
      rw [nextTokenFuel_step, if_neg hc]

theorem exists_free_residue (c : Nat) (m : List (Nat × Registrant))
    (h : m.length < USIZE) :
    ∃ k, k < USIZE ∧ ((c % USIZE + k) % USIZE) ∉ keysOf m := by
  by_contra hall
  push_neg at hall
  have hmaps : ∀ k : Fin USIZE,
      (fun k : Fin USIZE => (c % USIZE + k.1) % USIZE) k ∈ (keysOf m).toFinset :=
    fun k => List.mem_toFinset.2 (hall k.1 k.2)
  have hinj : Function.Injective (fun k : Fin USIZE => (c % USIZE + k.1) % USIZE) := by
    intro a b hab
    apply Fin.ext
    have h1 : a.1 ≡ b.1 [MOD USIZE] := Nat.ModEq.add_left_cancel' (c % USIZE) hab
    have h2 : a.1 % USIZE = b.1 % USIZE := h1
    rwa [Nat.mod_eq_of_lt a.2, Nat.mod_eq_of_lt b.2] at h2
  have hcard : USIZE ≤ (keysOf m).toFinset.card := by
    have h2 : (Finset.univ : Finset (Fin USIZE)).card ≤ (keysOf m).toFinset.card :=
      Finset.card_le_card_of_injOn
        (fun k : Fin USIZE => (c % USIZE + k.1) % USIZE)
        (fun k _ => hmaps k) (hinj.injOn)
    rwa [Finset.card_univ, Fintype.card_fin] at h2
  have h3 : (keysOf m).toFinset.card ≤ (keysOf m).length := (keysOf m).toFinset_card_le
  have h4 : (keysOf m).length = m.length := by simp [keysOf]
  omega

theorem mio_interest_r (r : Registrant) :
    r.mio_interest.r = !r.read_waitings.isEmpty := by
  simp only [Registrant.mio_interest, Ready.union]
  cases hR : r.read_waitings.isEmpty <;>
    cases hW : r.write_waitings.isEmpty <;>
      simp [Ready.none, Ready.readable, Ready.writable]

theorem mio_interest_w (r : Registrant) :
    r.mio_interest.w = !r.write_waitings.isEmpty := by
  simp only [Registrant.mio_interest, Ready.union]
  cases hR : r.read_waitings.isEmpty <;>
    cases hW : r.write_waitings.isEmpty <;>
      simp [Ready.none, Ready.readable, Ready.writable]

theorem mio_interest_eq_none_iff (r : Registrant) :
    r.mio_interest = Ready.none ↔
      (r.read_waitings.isEmpty && r.write_waitings.isEmpty) = true := by
  cases hR : r.read_waitings.isEmpty <;> cases hW : r.write_waitings.isEmpty <;>
    simp [Registrant.mio_interest, hR, hW, Ready.union, Ready.none, Ready.readable,
      Ready.writable]

theorem mio_register_ops_length (t : Nat) (r : Registrant) :
    (mio_register t r).2.length = if r.mio_interest = Ready.none then 0 else 1 := by
  simp only [mio_register]
  by_cases h : r.mio_interest = Ready.none
  · simp [h]
  · cases hf : r.is_first <;> simp [h, hf]

theorem mio_register_queues (t : Nat) (r : Registrant) :
    (mio_register t r).1.read_waitings = r.read_waitings ∧
    (mio_register t r).1.write_waitings = r.write_waitings := by
  simp only [mio_register]
  by_cases h : r.mio_interest = Ready.none
  · simp [h]
  · cases hf : r.is_first <;> simp [h, hf]

theorem mio_interest_ne_none_of_read (r : Registrant)
    (h : r.read_waitings ≠ []) : r.mio_interest ≠ Ready.none := by
  intro hnone
  have := (mio_interest_eq_none_iff r).1 hnone
  simp only [Bool.and_eq_true, List.isEmpty_iff] at this
  exact h this.1

theorem mio_interest_ne_none_of_write (r : Registrant)
    (h : r.write_waitings ≠ []) : r.mio_interest ≠ Ready.none := by
  intro hnone
  have := (mio_interest_eq_none_iff r).1 hnone
  simp only [Bool.and_eq_true, List.isEmpty_iff] at this
  exact h this.2

theorem handle_request_inv (s : PollerState) (req : Request) (eff : ReqEffect)
    (hs : StateInv s) (h : handle_request s req = .ok eff) : StateInv eff.state := by
  obtain ⟨hnd, hnt, hkb⟩ := hs
  cases req with
  | Register evented reply =>
    cases halloc : nextTokenFuel USIZE s.next_token s.registrants with
    | none => simp [handle_request, halloc] at h
    | some p =>
      obtain ⟨token, c'⟩ := p
      obtain ⟨hfree, htb, hcb⟩ := nextTokenFuel_sound _ _ _ _ _ halloc
      have hnotmem : token ∉ keysOf s.registrants :=
        (containsReg_false_iff token s.registrants).1 hfree
      simp only [handle_request, halloc, Except.ok.injEq] at h
      subst h
      refine ⟨?_, hcb, ?_⟩
      · rw [keysOf_insertReg_of_not_mem token _ _ hnotmem]
        simp [List.nodup_append, hnd, hnotmem]
      · intro k hk
        rw [keysOf_insertReg_of_not_mem token _ _ hnotmem] at hk
        rcases List.mem_append.1 hk with hk | hk
        · exact hkb k hk
        · simp only [List.mem_singleton] at hk
          subst hk
          exact htb
  | Deregister token =>
    cases hl : lookupReg s.registrants token with
    | none => simp [handle_request, hl] at h
    | some r =>
      simp only [handle_request, hl, Except.ok.injEq] at h
      subst h
      refine ⟨?_, hnt, ?_⟩
      · exact List.Nodup.sublist (keysOf_removeReg_sublist token s.registrants) hnd
      · intro k hk
        exact hkb k ((keysOf_removeReg_sublist token s.registrants).subset hk)
  | Monitor token interest notifier =>
    cases hl : lookupReg s.registrants token with
    | none => simp [handle_request, hl] at h
    | some r =>
      have hmem : token ∈ keysOf s.registrants := lookupReg_mem token r _ hl
      by_cases hcond : (pushWaiter r interest notifier).read_waitings.length = 1 ∨
          (pushWaiter r interest notifier).write_waitings.length = 1
      · simp only [handle_request, hl, if_pos hcond, Except.ok.injEq] at h
        subst h
        refine ⟨?_, hnt, ?_⟩
        · rw [keysOf_insertReg_of_mem token _ _ hmem]
          exact hnd
        · intro k hk
          rw [keysOf_insertReg_of_mem token _ _ hmem] at hk
          exact hkb k hk
      · simp only [handle_request, hl, if_neg hcond, Except.ok.injEq] at h
        subst h
        refine ⟨?_, hnt, ?_⟩
        · rw [keysOf_insertReg_of_mem token _ _ hmem]
          exact hnd
        · intro k hk
          rw [keysOf_insertReg_of_mem token _ _ hmem] at hk
          exact hkb k hk
  | SetTimeout => simp [handle_request] at h
  | CancelTimeout => simp [handle_request] at h

theorem runRequests_inv :
    ∀ (reqs : List Request) (s s' : PollerState),
      StateInv s → runRequests s reqs = .ok s' → StateInv s' := by
  intro reqs
  induction reqs with
  | nil =>
    intro s s' hs h
    simp only [runRequests, Except.ok.injEq] at h
    subst h
    exact hs
  | cons req rest ih =>
    intro s s' hs h
    cases heff : handle_request s req with
    | error err => simp [runRequests, heff] at h
    | ok eff =>
      simp only [runRequests, heff] at h
      exact ih eff.state s' (handle_request_inv s req eff hs heff) h

theorem run_cons (st : HandleState) (op : HandleOp) (rest : List HandleOp) :
    HandleState.run st (op :: rest) = HandleState.run (st.applyOp op) rest := rfl

theorem run_live (ops : List HandleOp) :
    ∀ st : HandleState, (HandleState.run st ops).live = liveAfter st.live ops := by
  induction ops with
  | nil => intro st; rfl
  | cons op rest ih =>
    intro st
    rw [run_cons, ih]
    cases op <;> simp [HandleState.applyOp, liveAfter]

theorem validOps_append (p q : List HandleOp) :
    ∀ l, validOps l (p ++ q) = true →
      validOps l p = true ∧ validOps (liveAfter l p) q = true := by
  induction p with
  | nil =>
    intro l h
    exact ⟨rfl, h⟩
  | cons op rest ih =>
    intro l h
    cases op with
    | clone =>
      simp only [List.cons_append, validOps, Bool.and_eq_true, decide_eq_true_eq] at h ⊢
      obtain ⟨h1, h2⟩ := h
      obtain ⟨h3, h4⟩ := ih (l + 1) h2
      exact ⟨⟨h1, h3⟩, by simpa [liveAfter] using h4⟩
    | drop =>
      simp only [List.cons_append, validOps, Bool.and_eq_true, decide_eq_true_eq] at h ⊢
      obtain ⟨h1, h2⟩ := h
      obtain ⟨h3, h4⟩ := ih (l - 1) h2
      exact ⟨⟨h1, h3⟩, by simpa [liveAfter] using h4⟩

theorem liveAfter_count (ops : List HandleOp) :
    ∀ l, validOps l ops = true →
      liveAfter l ops + countOp HandleOp.drop ops = l + countOp HandleOp.clone ops := by
  induction ops with
  | nil =>
    intro l h
    simp [liveAfter, countOp]
  | cons op rest ih =>
    intro l h
    cases op with
    | clone =>
      simp only [validOps, Bool.and_eq_true, decide_eq_true_eq] at h
      have := ih (l + 1) h.2
      simp only [liveAfter, countOp, if_pos, if_neg]
      simp only [show (HandleOp.clone = HandleOp.drop) = False by simp, if_false,
        show (HandleOp.clone = HandleOp.clone) = True by simp, if_true]
      omega
    | drop =>
      simp only [validOps, Bool.and_eq_true, decide_eq_true_eq] at h
      have := ih (l - 1) h.2
      simp only [liveAfter, countOp]
      simp only [show (HandleOp.drop = HandleOp.drop) = True by simp, if_true,
        show (HandleOp.drop = HandleOp.clone) = False by simp, if_false]
      omega

theorem handleInv_run (ops : List HandleOp) :
    ∀ st : HandleState, validOps st.live ops = true → HandleInv st →
      HandleInv (HandleState.run st ops) := by
  induction ops with
  | nil =>
    intro st _ hinv
    exact hinv
  | cons op rest ih =>
    intro st hv hinv
    obtain ⟨hcnt, hsent⟩ := hinv
    rw [run_cons]
    cases op with
    | clone =>
      simp only [validOps, Bool.and_eq_true, decide_eq_true_eq] at hv
      refine ih _ (by simpa [HandleState.applyOp] using hv.2) ?_
      constructor
      · simp [HandleState.applyOp, hcnt]
      · simp only [HandleState.applyOp]
        have hne : ¬ st.live + 1 = 0 := by omega
        have hne0 : ¬ st.live = 0 := by omega
        rw [if_neg hne]
        rw [if_neg hne0] at hsent
        exact hsent
    | drop =>
      simp only [validOps, Bool.and_eq_true, decide_eq_true_eq] at hv
      refine ih _ (by simpa [HandleState.applyOp] using hv.2) ?_
      by_cases h1 : st.live = 1
      · constructor
        · simp [HandleState.applyOp, hcnt, h1]
        · simp only [HandleState.applyOp, hcnt, h1]
          rw [h1] at hsent
          rw [if_neg (by omega : ¬ (1 : Nat) = 0)] at hsent
          simp [hsent]
      · have h2 : 2 ≤ st.live := by omega
        constructor
        · simp [HandleState.applyOp, hcnt]
        · simp only [HandleState.applyOp, hcnt]
          rw [if_neg (by omega : ¬ st.live = 1)]
          rw [if_neg (by omega : ¬ st.live = 0)] at hsent
          rw [if_neg (by omega : ¬ st.live - 1 = 0)]
          exact hsent

/-- C1: evaluation of the code at the claim's failing input. A resource is
registered (one `Register` request, which issues no OS call) and then
deregistered before any `Monitor` request, so it was never registered with the
OS facility; the claim says the `Deregister` removes it from the map and issues
no OS deregistration call. The code does remove it from the map, but — because
`Registrant::new` initializes `is_first` to `false` — the `!r.is_first` test
passes and `poll.deregister` IS called. -/
theorem deregister_never_registered_issues_os_call :
    handle_request initPoller (Request.Register 7 99) = .ok effRegister ∧
    effRegister.ops = [] ∧
    handle_request effRegister.state (Request.Deregister 0) = .ok effDeregister ∧
    effDeregister.state.registrants = [] ∧
    effDeregister.ops = [MioOp.deregister 7] := by
  decide

/-- C2: evaluation of a `Register` request on the empty reactor. A fresh token
(0) is allocated, a new registrant with empty waiter queues is inserted, no
OS-facility call is made, and the reply slot receives a handle bound to token
0 — but the inserted registrant has `is_first = false`, while the claim (and
the spec's register/reregister state machine) requires `is_first = true`. -/
theorem register_inserts_registrant :
    handle_request initPoller (Request.Register 7 99) = .ok effRegister ∧
    effRegister.state.registrants = [(0, Registrant.new 7)] ∧
    (Registrant.new 7).read_waitings = [] ∧
    (Registrant.new 7).write_waitings = [] ∧
    effRegister.ops = [] ∧
    effRegister.replies = [(99, 0)] ∧
    (Registrant.new 7).is_first = false := by
  decide

/-- C3 counterexample: a `Monitor(0, Read, _)` request processed while the
readable queue is already non-empty (`[nA]`) still issues an OS call, because
the writable queue happens to have length exactly 1 — the source condition is
`read_waitings.len() == 1 || write_waitings.len() == 1`, checked over BOTH
queues, not just the pushed direction's. -/
theorem monitor_nonempty_direction_extra_call :
    rBoth.read_waitings ≠ [] ∧
    handle_request sBoth (Request.Monitor 0 Interest.Read nC) =
      .ok { state := { next_token := 1
                       registrants := [(0, { is_first := false
                                             evented := 7
                                             read_waitings := [nA, nC]
                                             write_waitings := [nB] })]
                       timeout_queue_len := 0 }
            ops := [MioOp.reregister 7 0 ⟨true, true⟩]
            replies := [] } := by
  decide

/-- C3 (amended): for a `Monitor` request on a live token, exactly one
OS-facility (re)registration call is issued when, after the push, the readable
queue or the writable queue has length exactly 1, and none otherwise. In
particular the first waiter of a direction triggers exactly one call; a waiter
pushed onto an already non-empty direction triggers none — unless the other
direction's queue has length exactly 1, in which case one redundant call is
issued. -/
theorem monitor_rearm_condition (s : PollerState) (t : Nat) (i : Interest)
    (n : Notifier) (r : Registrant)
    (h : lookupReg s.registrants t = some r) :
    ∃ eff, handle_request s (Request.Monitor t i n) = .ok eff ∧
      eff.ops.length =
        (if (pushWaiter r i n).read_waitings.length = 1 ∨
            (pushWaiter r i n).write_waitings.length = 1
         then 1 else 0) := by
  simp only [handle_request, h]
  by_cases hcond : (pushWaiter r i n).read_waitings.length = 1 ∨
      (pushWaiter r i n).write_waitings.length = 1
  · rw [if_pos hcond]
    refine ⟨_, rfl, ?_⟩
    rw [if_pos hcond, mio_register_ops_length, if_neg ?_]
    intro hnone
    have hne : (pushWaiter r i n).read_waitings ≠ [] ∨
        (pushWaiter r i n).write_waitings ≠ [] := by
      cases i <;> simp [pushWaiter]
    rcases hne with h1 | h1
    · exact mio_interest_ne_none_of_read _ h1 hnone
    · exact mio_interest_ne_none_of_write _ h1 hnone
  · rw [if_neg hcond]
    refine ⟨_, rfl, ?_⟩
    rw [if_neg hcond]
    rfl

/-- witness for the C3 amended theorem at a concrete input: the push lands on
the already non-empty readable queue while the writable queue has length 1, so
exactly one (redundant) call is issued. -/
theorem monitor_rearm_condition_witness :
    lookupReg sBoth.registrants 0 = some rBoth ∧
    (∃ eff, handle_request sBoth (Request.Monitor 0 Interest.Read nC) = .ok eff ∧
      eff.ops.length =
        (if (pushWaiter rBoth Interest.Read nC).read_waitings.length = 1 ∨
            (pushWaiter rBoth Interest.Read nC).write_waitings.length = 1
         then 1 else 0)) :=
  ⟨rfl, monitor_rearm_condition sBoth 0 Interest.Read nC rBoth rfl⟩

/-- C4: processing a single ready event fires every queued waiter of each
reported direction — the fired sequence is exactly the queue, so all N waiters
are woken in insertion order — and leaves that direction's queue empty, while
an unreported direction's queue is untouched. The notifiers are arbitrary
(including ones whose receiver is gone, for which `send` fails), so failed
sends are silently discarded: they change nothing in the outcome. -/
theorem event_broadcast (s : PollerState) (e : MioEvent) (r : Registrant)
    (h : lookupReg s.registrants e.token = some r) :
    ∃ eff, processEvent s e = .ok eff ∧
      eff.fired = (if e.readable then r.read_waitings else []) ++
        (if e.writable then r.write_waitings else []) ∧
      ∃ r', lookupReg eff.state.registrants e.token = some r' ∧
        r'.read_waitings = (if e.readable then [] else r.read_waitings) ∧
        r'.write_waitings = (if e.writable then [] else r.write_waitings) := by
  cases hre : e.readable <;> cases hwr : e.writable <;>
  · simp only [processEvent, h, hre, hwr, if_true, if_false, Bool.false_eq_true]
    refine ⟨_, rfl, ?_, ?_⟩
    · simp
    · refine ⟨_, lookupReg_insertReg_self _ _ _, ?_, ?_⟩
      · rw [(mio_register_queues _ _).1]
      · rw [(mio_register_queues _ _).2]

/-- witness for the C4 theorem: a readable event on `sBoth` fires its single
readable waiter and empties the readable queue, leaving the writable one. -/
theorem event_broadcast_witness :
    lookupReg sBoth.registrants (MioEvent.mk 0 true false).token = some rBoth ∧
    (∃ eff, processEvent sBoth (MioEvent.mk 0 true false) = .ok eff ∧
      eff.fired =
        (if (MioEvent.mk 0 true false).readable then rBoth.read_waitings else []) ++
        (if (MioEvent.mk 0 true false).writable then rBoth.write_waitings else []) ∧
      ∃ r', lookupReg eff.state.registrants (MioEvent.mk 0 true false).token = some r' ∧
        r'.read_waitings =
          (if (MioEvent.mk 0 true false).readable then [] else rBoth.read_waitings) ∧
        r'.write_waitings =
          (if (MioEvent.mk 0 true false).writable then [] else rBoth.write_waitings)) :=
  ⟨rfl, event_broadcast sBoth (MioEvent.mk 0 true false) rBoth rfl⟩

/-- C5: token uniqueness. Starting from any state whose live registrants carry
pairwise distinct representable tokens, any sequence of requests preserves
that (so no two simultaneously-live registrants ever share a token), and the
wrap-around token allocator never returns a token currently present in the
registrant map. -/
theorem token_uniqueness (s : PollerState) (reqs : List Request) (s' : PollerState)
    (h1 : StateInv s) (h2 : runRequests s reqs = .ok s') :
    StateInv s' ∧
    ∀ t c', nextTokenFuel USIZE s'.next_token s'.registrants = some (t, c') →
      containsReg s'.registrants t = false := by
  refine ⟨runRequests_inv reqs s s' h1 h2, ?_⟩
  intro t c' h
  exact (nextTokenFuel_sound _ _ _ _ _ h).1

/-- witness for the C5 theorem: the invariant holds on `sBoth` and is carried
through a deregistration. -/
theorem token_uniqueness_witness :
    StateInv sBoth ∧
    runRequests sBoth [Request.Deregister 0] = .ok sAfterDereg ∧
    (StateInv sAfterDereg ∧
      ∀ t c', nextTokenFuel USIZE sAfterDereg.next_token sAfterDereg.registrants =
          some (t, c') →
        containsReg sAfterDereg.registrants t = false) :=
  ⟨by decide, by decide,
    token_uniqueness sBoth [Request.Deregister 0] sAfterDereg (by decide) (by decide)⟩

/-- C6: reference-counted teardown. For any valid interleaving of clones and
drops of one `EventedHandle` family (k clones and k+1 drops in total, each
performed on a live handle), at every point the shared count equals the number
of live handles and no `Deregister` has been sent while any handle is live;
after the last drop — the one whose `fetch_sub` observes count 1 — exactly one
`Deregister` request has been sent. -/
theorem handle_refcount (ops : List HandleOp)
    (hv : validOps 1 ops = true)
    (hc : countOp HandleOp.drop ops = countOp HandleOp.clone ops + 1) :
    (∀ p q, ops = p ++ q →
      (HandleState.run HandleState.new p).shared_count =
        (HandleState.run HandleState.new p).live ∧
      (HandleState.run HandleState.new p).dereg_sent =
        (if (HandleState.run HandleState.new p).live = 0 then 1 else 0)) ∧
    (HandleState.run HandleState.new ops).live = 0 ∧
    (HandleState.run HandleState.new ops).dereg_sent = 1 := by
  have hinv0 : HandleInv HandleState.new := by
    constructor <;> simp [HandleState.new]
  have hlive_new : HandleState.new.live = 1 := rfl
  have hpre : ∀ p q, ops = p ++ q → HandleInv (HandleState.run HandleState.new p) := by
    intro p q hpq
    have hv' : validOps 1 (p ++ q) = true := by rw [← hpq]; exact hv
    obtain ⟨hvp, -⟩ := validOps_append p q 1 hv'
    exact handleInv_run p HandleState.new (by rw [hlive_new]; exact hvp) hinv0
  have hlive : (HandleState.run HandleState.new ops).live = 0 := by
    rw [run_live, hlive_new]
    have := liveAfter_count ops 1 hv
    omega
  refine ⟨fun p q hpq => hpre p q hpq, hlive, ?_⟩
  obtain ⟨-, hsent⟩ := hpre ops [] (by simp)
  rw [hlive] at hsent
  simpa using hsent

/-- witness for the C6 theorem: one clone then two drops. -/
theorem handle_refcount_witness :
    validOps 1 opsW = true ∧
    countOp HandleOp.drop opsW = countOp HandleOp.clone opsW + 1 ∧
    ((∀ p q, opsW = p ++ q →
        (HandleState.run HandleState.new p).shared_count =
          (HandleState.run HandleState.new p).live ∧
        (HandleState.run HandleState.new p).dereg_sent =
          (if (HandleState.run HandleState.new p).live = 0 then 1 else 0)) ∧
      (HandleState.run HandleState.new opsW).live = 0 ∧
      (HandleState.run HandleState.new opsW).dereg_sent = 1) :=
  ⟨by decide, by decide, handle_refcount opsW (by decide) (by decide)⟩

/-- C7: the derived interest mask is readable exactly when the readable-waiter
queue is non-empty and writable exactly when the writable-waiter queue is
non-empty, and `mio_register` issues exactly one OS register/reregister call
when that mask is non-empty and none when it is empty (both queues empty), in
which case the resource falls out of the OS watch set. -/
theorem interest_derivation (r : Registrant) (t : Nat) :
    r.mio_interest.r = !r.read_waitings.isEmpty ∧
    r.mio_interest.w = !r.write_waitings.isEmpty ∧
    (mio_register t r).2.length = (if r.mio_interest = Ready.none then 0 else 1) ∧
    (r.mio_interest = Ready.none ↔
      (r.read_waitings.isEmpty && r.write_waitings.isEmpty) = true) :=
  ⟨mio_interest_r r, mio_interest_w r, mio_register_ops_length t r,
    mio_interest_eq_none_iff r⟩

/-- C8: one `poll` call drains at most one pending request — the pending queue
afterwards is exactly the input queue with one element dropped — and the OS
wait uses a zero timeout exactly when a request was processed, the
caller-supplied timeout otherwise. -/
theorem poll_drains_at_most_one (s : PollerState) (pending : List Request)
    (timeout : Option Nat) (events : List MioEvent) (eff : PollEffect)
    (h : pollStep s pending timeout events = .ok eff) :
    eff.pending = pending.drop 1 ∧
    eff.usedTimeout = (if pending.isEmpty then timeout else some 0) := by
  cases pending with
  | nil =>
    cases hev : processEvents s events with
    | error err => simp [pollStep, hev] at h
    | ok eeff =>
      simp only [pollStep, hev, Except.ok.injEq] at h
      subst h
      exact ⟨rfl, by simp⟩
  | cons req rest =>
    cases hreq : handle_request s req with
    | error err => simp [pollStep, hreq] at h
    | ok reff =>
      cases hev : processEvents reff.state events with
      | error err => simp [pollStep, hreq, hev] at h
      | ok eeff =>
        simp only [pollStep, hreq, hev, Except.ok.injEq] at h
        subst h
        exact ⟨rfl, rfl⟩

/-- witness for the C8 theorem: one pending `Deregister` request is drained
and the OS wait timeout is forced to zero. -/
theorem poll_drains_at_most_one_witness :
    pollStep sBoth [Request.Deregister 0] (some 7) [] = .ok effPoll ∧
    (effPoll.pending = [Request.Deregister 0].drop 1 ∧
      effPoll.usedTimeout =
        (if ([Request.Deregister 0] : List Request).isEmpty then some 7 else some 0)) :=
  ⟨by decide,
    poll_drains_at_most_one sBoth [Request.Deregister 0] (some 7) [] effPoll (by decide)⟩

/-- C9: a token absent from the registrant map is fatal — a `Deregister` or
`Monitor` request for it, or a ready event reporting it, aborts the loop
iteration with an invariant-violation failure rather than being skipped or
recovered from (the lookup result is never an error value that is handled). -/
theorem unknown_token_fatal (s : PollerState) (t : Nat) (i : Interest)
    (n : Notifier) (rb wb : Bool) (tmo : Option Nat)
    (h : lookupReg s.registrants t = Option.none) :
    handle_request s (Request.Deregister t) = .error PollError.invariantViolation ∧
    handle_request s (Request.Monitor t i n) = .error PollError.invariantViolation ∧
    processEvent s { token := t, readable := rb, writable := wb } =
      .error PollError.invariantViolation ∧
    pollStep s [] tmo [{ token := t, readable := rb, writable := wb }] =
      .error PollError.invariantViolation := by
  refine ⟨?_, ?_, ?_, ?_⟩
  · simp [handle_request, h]
  · simp [handle_request, h]
  · simp [processEvent, h]
  · simp [pollStep, processEvents, processEvent, h]

/-- witness for the C9 theorem: token 5 on the empty reactor. -/
theorem unknown_token_fatal_witness :
    lookupReg initPoller.registrants 5 = Option.none ∧
    (handle_request initPoller (Request.Deregister 5) =
        .error PollError.invariantViolation ∧
      handle_request initPoller (Request.Monitor 5 Interest.Read nA) =
        .error PollError.invariantViolation ∧
      processEvent initPoller { token := 5, readable := true, writable := false } =
        .error PollError.invariantViolation ∧
      pollStep initPoller [] (some 3) [{ token := 5, readable := true, writable := false }] =
        .error PollError.invariantViolation) :=
  ⟨rfl, unknown_token_fatal initPoller 5 Interest.Read nA true false (some 3) rfl⟩

/-- C10: termination of the token allocator's skip loop. Whenever the
registrant map holds fewer than `2 ^ 64` entries (so it cannot contain every
representable token), the loop started at any counter value returns, within at
most one full wrap of the counter (`USIZE` iterations of fuel), a token that is
free in the map. -/
theorem next_token_terminates (c : Nat) (m : List (Nat × Registrant))
    (h : m.length < USIZE) :
    ∃ t c', nextTokenFuel USIZE c m = some (t, c') ∧ containsReg m t = false := by
  obtain ⟨k, hk, hfree⟩ := exists_free_residue c m h
  obtain ⟨t, c', ht⟩ := nextTokenFuel_some_of_free USIZE c m ⟨k, hk, hfree⟩
  exact ⟨t, c', ht, (nextTokenFuel_sound _ _ _ _ _ ht).1⟩

/-- witness for the C10 theorem: counter 5 with token 5 in use. -/
theorem next_token_terminates_witness :
    ([(5, rBoth)] : List (Nat × Registrant)).length < USIZE ∧
    (∃ t c', nextTokenFuel USIZE 5 [(5, rBoth)] = some (t, c') ∧
      containsReg [(5, rBoth)] t = false) :=
  ⟨by decide, next_token_terminates 5 [(5, rBoth)] (by decide)⟩

end Fibers
